import Mathlib

/-!
Verification of the kv-crud-core storage contract.

The crate `kv-crud-core` (src/lib.rs) declares capability traits
(`Create`, `Read`, `ReadWithPaginationAndSort`, `Update`, `Delete`, `Crud`)
together with two value types: `Page` (page number and size, both `u32`,
with an `offset` accessor computing `number * size` in `u32` arithmetic)
and `Sort` (ASCENDING / DESCENDING).

The reference in-memory store described by the specification is not part of
src/ (the crate only declares the traits a store must implement), so the
store below is modelled from the specification's words: a collection of
entities keyed by id, with insertion order retained so that unsorted listing
is deterministic and sorting is stable.
-/

/-- Modulus of 32-bit unsigned arithmetic: Rust `u32` values live in `[0, u32Size)`. -/
def u32Size : Nat := 4294967296

/-- `Page` from src/lib.rs: page `number` (starting from 0) and results per
page `size`, both `u32` (modelled as `Nat` restricted to `[0, u32Size)`). -/
structure Page where
  number : Nat
  size : Nat
  deriving Repr, DecidableEq

/-- `Page::new` from src/lib.rs: stores both fields verbatim. -/
def Page.new (number size : Nat) : Page := ⟨number, size⟩

/-- `Page::offset` from src/lib.rs: `self.number * self.size` computed on
`u32`, hence reduced modulo `2^32`. -/
def Page.offset (p : Page) : Nat := (p.number * p.size) % u32Size

/-- `Sort` from src/lib.rs (named `SortOrder` here because `Sort` is a
reserved word in Lean). -/
inductive SortOrder where
  | ASCENDING
  | DESCENDING
  deriving Repr, DecidableEq

/-- Modelled from the spec: the error taxonomy usable by the in-memory
reference store, whose implementation is absent from src/ (the crate only
declares the capability traits with an abstract associated `Error` type).
Only `NotFound` applies to the in-memory store. -/
inductive StoreError where
  | notFound
  deriving Repr, DecidableEq

/-- Modelled from the spec: the reference in-memory store, absent from src/.
It keeps the collection of entities in insertion order; ids are derived from
entities by the identity contract (`get_id`), passed explicitly below. -/
structure Store (E : Type) where
  records : List E
  deriving Repr, DecidableEq

/-- First record whose id equals `i`, scanning in insertion order. -/
def findRecord {I E : Type} [DecidableEq I] (getId : E → I) (i : I) : List E → Option E
  | [] => none
  | x :: l => if getId x = i then some x else findRecord getId i l

/-- Insert one element into a list sorted ascending by id, before the first
element whose id is not smaller; equal ids keep insertion order (stability). -/
def insertById {I E : Type} [LinearOrder I] (getId : E → I) (a : E) : List E → List E
  | [] => [a]
  | b :: l => if getId a ≤ getId b then a :: b :: l else b :: insertById getId a l

/-- Modelled from the spec: stable ascending sort of the collection by the
identity key (the sort dimension of the in-memory store). -/
def sortById {I E : Type} [LinearOrder I] (getId : E → I) : List E → List E
  | [] => []
  | a :: l => insertById getId a (sortById getId l)

/-- Modelled from the spec: `save` of the in-memory store. Upsert semantics:
when an entity with the same id exists it is overwritten in place, otherwise
the entity is appended; `save` never fails. -/
def Store.save {I E : Type} [DecidableEq I] (getId : E → I) (st : Store E) (e : E) :
    Except StoreError Unit × Store E :=
  if ∃ x ∈ st.records, getId x = getId e then
    (Except.ok (), ⟨st.records.map fun x => if getId x = getId e then e else x⟩)
  else
    (Except.ok (), ⟨st.records ++ [e]⟩)

/-- Modelled from the spec: `find_by_id` of the in-memory store. Returns the
stored entity with the given id, or fails with `NotFound`. -/
def Store.find_by_id {I E : Type} [DecidableEq I] (getId : E → I) (st : Store E) (i : I) :
    Except StoreError E :=
  match findRecord getId i st.records with
  | some e => Except.ok e
  | none => Except.error StoreError.notFound

/-- Modelled from the spec: `update` of the in-memory store. Requires a
record with the entity's id to exist, then replaces the stored value
wholesale, keeping its position; otherwise fails with `NotFound`. -/
def Store.update {I E : Type} [DecidableEq I] (getId : E → I) (st : Store E) (e : E) :
    Except StoreError Unit × Store E :=
  if ∃ x ∈ st.records, getId x = getId e then
    (Except.ok (), ⟨st.records.map fun x => if getId x = getId e then e else x⟩)
  else
    (Except.error StoreError.notFound, st)

/-- Modelled from the spec: `remove_by_id` of the in-memory store. Removes
the record with the given id, or fails with `NotFound` when absent. -/
def Store.remove_by_id {I E : Type} [DecidableEq I] (getId : E → I) (st : Store E) (i : I) :
    Except StoreError Unit × Store E :=
  if ∃ x ∈ st.records, getId x = i then
    (Except.ok (), ⟨st.records.filter fun x => decide (getId x ≠ i)⟩)
  else
    (Except.error StoreError.notFound, st)

/-- Modelled from the spec: `remove` of the in-memory store derives the id
via the identity contract and delegates to `remove_by_id`. -/
def Store.remove {I E : Type} [DecidableEq I] (getId : E → I) (st : Store E) (e : E) :
    Except StoreError Unit × Store E :=
  Store.remove_by_id getId st (getId e)

/-- Modelled from the spec: `find_all_with_page` of the in-memory store.
Returns the slice `[offset, offset + size)` of the collection in insertion
order, clipped to the collection's bounds; never fails. -/
def Store.find_all_with_page {E : Type} (st : Store E) (page : Page) :
    Except StoreError (List E) :=
  Except.ok ((st.records.drop page.offset).take page.size)

/-- Modelled from the spec: `find_all_with_page_and_sort` of the in-memory
store. Sorts the full collection by the identity key (ASCENDING smallest
first, DESCENDING the reverse of that) and then slices the requested page. -/
def Store.find_all_with_page_and_sort {I E : Type} [LinearOrder I] (getId : E → I)
    (st : Store E) (page : Page) (sort : SortOrder) : Except StoreError (List E) :=
  match sort with
  | SortOrder.ASCENDING =>
      Except.ok (((sortById getId st.records).drop page.offset).take page.size)
  | SortOrder.DESCENDING =>
      Except.ok (((sortById getId st.records).reverse.drop page.offset).take page.size)

/-- The list of entities carried by a pagination result (empty on error). -/
def pageItems {E : Type} : Except StoreError (List E) → List E
  | Except.ok l => l
  | Except.error _ => []

/-! ### Helper lemmas about `findRecord` -/

theorem findRecord_eq_none_iff {I E : Type} [DecidableEq I] (getId : E → I) (i : I) :
    ∀ l : List E, findRecord getId i l = none ↔ ∀ x ∈ l, getId x ≠ i := by
  intro l
  induction l with
  | nil => simp [findRecord]
  | cons x l ih =>
      by_cases hx : getId x = i
      · simp [findRecord, hx]
      · simp [findRecord, hx, ih]

theorem findRecord_eq_some {I E : Type} [DecidableEq I] (getId : E → I) (i : I) :
    ∀ (l : List E) (e : E), findRecord getId i l = some e → e ∈ l ∧ getId e = i := by
  intro l
  induction l with
  | nil => intro e h; simp [findRecord] at h
  | cons x l ih =>
      intro e h
      by_cases hx : getId x = i
      · simp [findRecord, hx] at h
        subst h
        exact ⟨List.mem_cons_self x l, hx⟩
      · simp [findRecord, hx] at h
        rcases ih e h with ⟨hm, hi⟩
        exact ⟨List.mem_cons_of_mem x hm, hi⟩

theorem findRecord_map_replace {I E : Type} [DecidableEq I] (getId : E → I) (e : E) :
    ∀ l : List E, (∃ x ∈ l, getId x = getId e) →
      findRecord getId (getId e) (l.map fun x => if getId x = getId e then e else x) = some e := by
  intro l
  induction l with
  | nil => intro h; simp at h
  | cons x l ih =>
      intro h
      by_cases hx : getId x = getId e
      · simp [findRecord, hx]
      · have hl : ∃ y ∈ l, getId y = getId e := by
          rcases h with ⟨y, hy, hid⟩
          rcases List.mem_cons.mp hy with rfl | hy2
          · exact absurd hid hx
          · exact ⟨y, hy2, hid⟩
        simp [findRecord, hx]
        exact ih hl

theorem findRecord_append_singleton {I E : Type} [DecidableEq I] (getId : E → I) (e : E) :
    ∀ l : List E, (∀ x ∈ l, getId x ≠ getId e) →
      findRecord getId (getId e) (l ++ [e]) = some e := by
  intro l
  induction l with
  | nil => simp [findRecord]
  | cons x l ih =>
      intro h
      have hx : getId x ≠ getId e := h x (List.mem_cons_self x l)
      simp only [List.cons_append, findRecord, if_neg hx]
      exact ih fun y hy => h y (List.mem_cons_of_mem x hy)

/-- Reading back a just-saved entity by its own id always succeeds. -/
theorem find_by_id_save {I E : Type} [DecidableEq I] (getId : E → I) (st : Store E) (e : E) :
    Store.find_by_id getId (Store.save getId st e).2 (getId e) = Except.ok e := by
  by_cases h : ∃ x ∈ st.records, getId x = getId e
  · simp only [Store.save, if_pos h, Store.find_by_id]
    rw [findRecord_map_replace getId e st.records h]
  · have hall : ∀ x ∈ st.records, getId x ≠ getId e := by
      intro x hx
      exact fun hid => h ⟨x, hx, hid⟩
    simp only [Store.save, if_neg h, Store.find_by_id]
    rw [findRecord_append_singleton getId e st.records hall]

/-! ### C1: the offset law of `Page` -/

/-- C1 (counterexample): `Page::offset` is computed in `u32` arithmetic, so
for `number = size = 65536` the product wraps to 0 and the claimed equality
`offset = number * size` fails. -/
theorem page_offset_overflow_counterexample :
    (Page.new 65536 65536).offset ≠ 65536 * 65536 := by decide

/-- C1 (amended): for `u32` inputs, `Page::new(number, size).offset()` equals
`number * size` reduced modulo `2^32`; in particular it equals the exact
product whenever that product fits in a `u32`. -/
theorem page_offset_eq_mul_mod (number size : Nat)
    (h1 : number < u32Size) (h2 : size < u32Size) :
    (Page.new number size).offset = (number * size) % u32Size ∧
    (number * size < u32Size → (Page.new number size).offset = number * size) := by
  refine ⟨rfl, fun h => ?_⟩
  simp only [Page.new, Page.offset]
  exact Nat.mod_eq_of_lt h

/-- C1 (witness): the amended offset law evaluated at `number = 3`, `size = 5`. -/
theorem page_offset_eq_mul_mod_witness : (Page.new 3 5).offset = 15 := by
  have h := page_offset_eq_mul_mod 3 5 (by decide) (by decide)
  exact h.2 (by decide)

/-! ### C2: round trip -/

/-- C2: for every entity `e` and every state of the in-memory store, `save(e)`
followed by `find_by_id(e.get_id())` succeeds and returns a value equal to `e`. -/
theorem save_then_find_round_trip {I E : Type} [DecidableEq I] (getId : E → I)
    (st : Store E) (e : E) :
    Store.find_by_id getId (Store.save getId st e).2 (getId e) = Except.ok e :=
  find_by_id_save getId st e

/-! ### C3: upsert semantics of `save` -/

/-- C3: `save` always succeeds; it grows the collection by at most one; when
an entity with the same id already exists the collection size is unchanged
(overwrite, not duplicate); and the saved value is observable to subsequent
reads. -/
theorem save_upsert_semantics {I E : Type} [DecidableEq I] (getId : E → I)
    (st : Store E) (e : E) :
    (Store.save getId st e).1 = Except.ok () ∧
    (Store.save getId st e).2.records.length ≤ st.records.length + 1 ∧
    ((∃ x ∈ st.records, getId x = getId e) →
      (Store.save getId st e).2.records.length = st.records.length) ∧
    ((¬ ∃ x ∈ st.records, getId x = getId e) →
      (Store.save getId st e).2.records.length = st.records.length + 1) ∧
    Store.find_by_id getId (Store.save getId st e).2 (getId e) = Except.ok e := by
  by_cases h : ∃ x ∈ st.records, getId x = getId e
  · refine ⟨?_, ?_, ?_, ?_, find_by_id_save getId st e⟩
    · simp [Store.save, if_pos h]
    · simp [Store.save, if_pos h]
    · intro _; simp [Store.save, if_pos h]
    · intro hc; exact absurd h hc
  · refine ⟨?_, ?_, ?_, ?_, find_by_id_save getId st e⟩
    · simp [Store.save, if_neg h]
    · simp [Store.save, if_neg h]
    · intro hc; exact absurd hc h
    · intro _; simp [Store.save, if_neg h]

/-- C3 (witness): saving id 1 into a store that already holds id 1 keeps the
size at 2 and the new value is read back. -/
theorem save_upsert_semantics_witness :
    (Store.save Prod.fst (⟨[(1, 10), (2, 20)]⟩ : Store (Nat × Nat)) (1, 99)).2.records.length = 2 ∧
    Store.find_by_id Prod.fst
      (Store.save Prod.fst (⟨[(1, 10), (2, 20)]⟩ : Store (Nat × Nat)) (1, 99)).2 1 =
      Except.ok (1, 99) := by
  have h := save_upsert_semantics Prod.fst (⟨[(1, 10), (2, 20)]⟩ : Store (Nat × Nat)) (1, 99)
  exact ⟨h.2.2.1 (by decide), h.2.2.2.2⟩

/-! ### C4: `find_by_id` error behaviour -/

/-- C4: `find_by_id` fails with `NotFound` exactly when no record with the
given id exists; when it succeeds, the returned value is the stored entity
with that id (the model has value semantics, so the caller's copy is
independent of the store). -/
theorem find_by_id_not_found_iff {I E : Type} [DecidableEq I] (getId : E → I)
    (st : Store E) (i : I) :
    (Store.find_by_id getId st i = Except.error StoreError.notFound ↔
      ∀ x ∈ st.records, getId x ≠ i) ∧
    (∀ e : E, Store.find_by_id getId st i = Except.ok e → e ∈ st.records ∧ getId e = i) := by
  constructor
  · rcases hf : findRecord getId i st.records with _ | e
    · simp only [Store.find_by_id, hf]
      simp only [true_iff]
      exact (findRecord_eq_none_iff getId i st.records).mp hf
    · simp only [Store.find_by_id, hf]
      constructor
      · intro hc; exact absurd hc (by simp)
      · intro hall
        have := (findRecord_eq_none_iff getId i st.records).mpr hall
        rw [this] at hf
        exact absurd hf (by simp)
  · intro e he
    rcases hf : findRecord getId i st.records with _ | x
    · simp [Store.find_by_id, hf] at he
    · simp only [Store.find_by_id, hf, Except.ok.injEq] at he
      subst he
      exact findRecord_eq_some getId i st.records x hf

/-- C4 (witness): looking up an absent id fails with `NotFound`, and a
successful lookup returns the stored record. -/
theorem find_by_id_not_found_iff_witness :
    Store.find_by_id Prod.fst (⟨[(1, 10)]⟩ : Store (Nat × Nat)) 2 =
      Except.error StoreError.notFound ∧
    ((2, 20) ∈ (⟨[(1, 10), (2, 20)]⟩ : Store (Nat × Nat)).records ∧ (2, 20).fst = 2) := by
  constructor
  · exact (find_by_id_not_found_iff Prod.fst (⟨[(1, 10)]⟩ : Store (Nat × Nat)) 2).1.mpr
      (by decide)
  · exact (find_by_id_not_found_iff Prod.fst (⟨[(1, 10), (2, 20)]⟩ : Store (Nat × Nat)) 2).2
      (2, 20) (by rfl)

/-! ### C5: `find_all_with_page` slicing -/

/-- C5: `find_all_with_page` always succeeds and returns the slice
`[offset, offset + size)` of the collection in insertion order, clipped to
the collection's bounds; a page whose offset lies at or beyond the end
yields the empty sequence rather than an error. -/
theorem find_all_with_page_slice {E : Type} (st : Store E) (page : Page) :
    Store.find_all_with_page st page =
      Except.ok ((st.records.drop page.offset).take page.size) ∧
    (st.records.length ≤ page.offset →
      Store.find_all_with_page st page = Except.ok []) := by
  refine ⟨rfl, fun h => ?_⟩
  simp [Store.find_all_with_page, List.drop_eq_nil_of_le h]

/-- C5 (witness): page 5 of size 1 over a one-element store is empty, with no
error. -/
theorem find_all_with_page_slice_witness :
    Store.find_all_with_page (⟨[(1, 10)]⟩ : Store (Nat × Nat)) (Page.new 5 1) =
      Except.ok [] := by
  exact (find_all_with_page_slice (⟨[(1, 10)]⟩ : Store (Nat × Nat)) (Page.new 5 1)).2
    (by decide)

/-! ### C6: pagination coverage -/

/-- Concatenating the first `k` chunks of width `s` of a list gives its first
`k * s` elements. -/
theorem flatten_chunks {E : Type} (s : Nat) :
    ∀ (k : Nat) (l : List E),
      ((List.range k).map fun p => (l.drop (p * s)).take s).flatten = l.take (k * s) := by
  intro k
  induction k with
  | zero => intro l; simp
  | succ k ih =>
      intro l
      rw [List.range_succ, List.map_append, List.flatten_append]
      simp only [List.map_cons, List.map_nil, List.flatten_cons, List.flatten_nil,
        List.append_nil]
      rw [ih, Nat.succ_mul, List.take_add]

/-- Concatenating all `ceil(n/s)` chunks of width `s` (with the chunk offsets
reduced modulo `2^32`, as `Page::offset` computes them) restores the list,
provided the list fits in the `u32` index range. -/
theorem coverage_list {E : Type} (s : Nat) (hs : 0 < s) (l : List E)
    (hl : l.length ≤ u32Size) :
    ((List.range ((l.length + s - 1) / s)).map fun p =>
        (l.drop ((p * s) % u32Size)).take s).flatten = l := by
  have hks : ((l.length + s - 1) / s) * s ≤ l.length + s - 1 :=
    Nat.div_mul_le_self (l.length + s - 1) s
  have hcong : ∀ p ∈ List.range ((l.length + s - 1) / s),
      (l.drop ((p * s) % u32Size)).take s = (l.drop (p * s)).take s := by
    intro p hp
    have hpk : p + 1 ≤ (l.length + s - 1) / s := List.mem_range.mp hp
    have hp1 : (p + 1) * s ≤ ((l.length + s - 1) / s) * s := Nat.mul_le_mul_right s hpk
    have hexp : (p + 1) * s = p * s + s := Nat.succ_mul p s
    have hlt : p * s < u32Size := by
      obtain ⟨a, ha⟩ : ∃ a, p * s = a := ⟨p * s, rfl⟩
      obtain ⟨b, hb⟩ : ∃ b, ((l.length + s - 1) / s) * s = b :=
        ⟨((l.length + s - 1) / s) * s, rfl⟩
      rw [hexp, ha, hb] at hp1
      rw [hb] at hks
      have hpos : (0 : Nat) < u32Size := by norm_num [u32Size]
      rw [ha]
      omega
    rw [Nat.mod_eq_of_lt hlt]
  rw [List.map_congr_left hcong, flatten_chunks s ((l.length + s - 1) / s) l]
  have hnk : l.length ≤ ((l.length + s - 1) / s) * s := by
    have h1 : s * ((l.length + s - 1) / s) + (l.length + s - 1) % s = l.length + s - 1 :=
      Nat.div_add_mod (l.length + s - 1) s
    have h2 : (l.length + s - 1) % s < s := Nat.mod_lt _ hs
    obtain ⟨m, hm⟩ : ∃ m, s * ((l.length + s - 1) / s) = m :=
      ⟨s * ((l.length + s - 1) / s), rfl⟩
    rw [hm] at h1
    rw [Nat.mul_comm ((l.length + s - 1) / s) s, hm]
    omega
  exact List.take_of_length_le hnk

/-- C6 (amended): for a collection of at most `2^32` records — so that no
page offset wraps in the `u32` arithmetic of `Page::offset` — and any page
size `s > 0`, concatenating the pages `0 .. ceil(n/s) - 1` returned by
`find_all_with_page` reproduces the full collection in order, with no
duplicates and no omissions. Beyond `2^32` records the offsets wrap and
coverage fails (see the counterexample below). -/
theorem pagination_coverage {E : Type} (st : Store E) (s : Nat) (hs : 0 < s)
    (hn : st.records.length ≤ u32Size) :
    ((List.range ((st.records.length + s - 1) / s)).map fun p =>
        pageItems (Store.find_all_with_page st (Page.new p s))).flatten = st.records := by
  have hfun : ∀ p ∈ List.range ((st.records.length + s - 1) / s),
      pageItems (Store.find_all_with_page st (Page.new p s)) =
        (st.records.drop ((p * s) % u32Size)).take s := by
    intro p _
    rfl
  rw [List.map_congr_left hfun]
  exact coverage_list s hs st.records hn

/-- C6 (witness): three records paged with size 2 give pages `[r1, r2]` and
`[r3]`, whose concatenation is the whole collection. -/
theorem pagination_coverage_witness :
    ((List.range (((⟨[(1, 10), (2, 20), (3, 30)]⟩ : Store (Nat × Nat)).records.length
        + 2 - 1) / 2)).map fun p =>
      pageItems (Store.find_all_with_page (⟨[(1, 10), (2, 20), (3, 30)]⟩ : Store (Nat × Nat))
        (Page.new p 2))).flatten = [(1, 10), (2, 20), (3, 30)] := by
  exact pagination_coverage (⟨[(1, 10), (2, 20), (3, 30)]⟩ : Store (Nat × Nat)) 2
    (by decide) (by norm_num [u32Size])

/-- Summing a map whose values are all equal to `c` counts `c` once per
element. -/
theorem sum_map_eq_of_const {A : Type} (g : A → Nat) (c : Nat) :
    ∀ l : List A, (∀ x ∈ l, g x = c) → (l.map g).sum = l.length * c := by
  intro l
  induction l with
  | nil => intro _; simp
  | cons a l ih =>
      intro h
      simp only [List.map_cons, List.sum_cons, List.length_cons]
      rw [h a (List.mem_cons_self a l), ih (fun x hx => h x (List.mem_cons_of_mem a hx))]
      ring

theorem Store_records_mk {E : Type} (l : List E) : (⟨l⟩ : Store E).records = l := rfl

theorem find_all_with_page_mk {E : Type} (l : List E) (page : Page) :
    Store.find_all_with_page (⟨l⟩ : Store E) page
      = Except.ok ((l.drop page.offset).take page.size) := rfl

theorem pageItems_ok {E : Type} (l : List E) : pageItems (Except.ok l) = l := rfl

theorem Page_offset_new (a b : Nat) : (Page.new a b).offset = (a * b) % u32Size := rfl

theorem Page_size_new (a b : Nat) : (Page.new a b).size = b := rfl

/-- C6 (counterexample): the unrestricted claim fails. With `2^32 + 1` records
and page size 2 there are `2^31 + 1` pages; the last page (number `2^31`) has
`u32` offset `2^31 * 2 = 2^32`, which wraps to 0, so it delivers the first two
records again instead of only the final one. Every page thus carries two
records and the concatenation has `2^32 + 2` elements, one more than the
collection, so it duplicates two records and omits the last. -/
theorem pagination_coverage_counterexample :
    ¬ (((List.range (((⟨List.range 4294967297⟩ : Store Nat).records.length + 2 - 1) / 2)).map
        fun p => pageItems (Store.find_all_with_page (⟨List.range 4294967297⟩ : Store Nat)
          (Page.new p 2))).flatten
      = (⟨List.range 4294967297⟩ : Store Nat).records) := by
  intro heq
  have hrl : (⟨List.range 4294967297⟩ : Store Nat).records.length = 4294967297 := by
    rw [Store_records_mk, List.length_range]
  have hall : ∀ x ∈ (List.range (((⟨List.range 4294967297⟩ : Store Nat).records.length
        + 2 - 1) / 2)).map
      (fun p => pageItems (Store.find_all_with_page (⟨List.range 4294967297⟩ : Store Nat)
        (Page.new p 2))),
      x.length = 2 := by
    intro x hx
    obtain ⟨p, _, rfl⟩ := List.mem_map.mp hx
    show (pageItems (Store.find_all_with_page (⟨List.range 4294967297⟩ : Store Nat)
      (Page.new p 2))).length = 2
    rw [find_all_with_page_mk, pageItems_ok, Page_offset_new, Page_size_new,
      List.length_take, List.length_drop, List.length_range]
    simp only [u32Size]
    omega
  have hlen := congrArg List.length heq
  rw [List.length_flatten, sum_map_eq_of_const List.length 2 _ hall, List.length_map,
    List.length_range, hrl] at hlen
  omega

/-! ### C7: `remove_by_id` semantics -/

/-- Removing the unique record with id `i` shrinks the collection by exactly
one (ids are unique per the store invariant). -/
theorem length_filter_remove {I E : Type} [DecidableEq I] (getId : E → I) (i : I) :
    ∀ l : List E, (l.map getId).Nodup → (∃ x ∈ l, getId x = i) →
      (l.filter fun x => decide (getId x ≠ i)).length + 1 = l.length := by
  intro l
  induction l with
  | nil => intro _ h; simp at h
  | cons x l ih =>
      intro hnd hex
      rw [List.map_cons, List.nodup_cons] at hnd
      by_cases hx : getId x = i
      · have hkeep : ∀ y ∈ l, getId y ≠ i := by
          intro y hy hyi
          apply hnd.1
          have hyx : getId y = getId x := by rw [hyi, hx]
          exact hyx ▸ List.mem_map_of_mem getId hy
        have hfl : l.filter (fun y => decide (getId y ≠ i)) = l :=
          List.filter_eq_self.mpr (by intro a ha; simpa using hkeep a ha)
        simp [List.filter_cons, hx, hfl]
        exact hkeep
      · have hex2 : ∃ y ∈ l, getId y = i := by
          rcases hex with ⟨y, hy, hyi⟩
          rcases List.mem_cons.mp hy with rfl | hy2
          · exact absurd hyi hx
          · exact ⟨y, hy2, hyi⟩
        have hlen := ih hnd.2 hex2
        simp only [List.filter_cons]
        rw [show (decide (getId x ≠ i)) = true by simp [hx]]
        simp only [if_true, List.length_cons]
        omega

/-- C7: `remove_by_id(i)` fails with `NotFound` exactly when no record with id
`i` exists (leaving the store unchanged); on success the collection shrinks by
exactly one and a subsequent `find_by_id(i)` fails with `NotFound`. -/
theorem remove_by_id_semantics {I E : Type} [DecidableEq I] (getId : E → I)
    (st : Store E) (i : I) (hnd : (st.records.map getId).Nodup) :
    ((¬ ∃ x ∈ st.records, getId x = i) →
      Store.remove_by_id getId st i = (Except.error StoreError.notFound, st)) ∧
    ((∃ x ∈ st.records, getId x = i) →
      (Store.remove_by_id getId st i).1 = Except.ok () ∧
      (Store.remove_by_id getId st i).2.records.length + 1 = st.records.length ∧
      Store.find_by_id getId (Store.remove_by_id getId st i).2 i =
        Except.error StoreError.notFound) := by
  constructor
  · intro h; simp [Store.remove_by_id, if_neg h]
  · intro h
    refine ⟨?_, ?_, ?_⟩
    · simp [Store.remove_by_id, if_pos h]
    · simp only [Store.remove_by_id, if_pos h]
      exact length_filter_remove getId i st.records hnd h
    · simp only [Store.remove_by_id, if_pos h, Store.find_by_id]
      have hnone :
          findRecord getId i (st.records.filter fun x => decide (getId x ≠ i)) = none :=
        (findRecord_eq_none_iff getId i _).mpr
          (by intro x hx; simpa using (List.mem_filter.mp hx).2)
      rw [hnone]

/-- C7 (witness): removing id 1 from a two-record store succeeds, leaves one
record, and id 1 is no longer readable. -/
theorem remove_by_id_semantics_witness :
    (Store.remove_by_id Prod.fst (⟨[(1, 10), (2, 20)]⟩ : Store (Nat × Nat)) 1).2.records.length
      + 1 = 2 ∧
    Store.find_by_id Prod.fst
      (Store.remove_by_id Prod.fst (⟨[(1, 10), (2, 20)]⟩ : Store (Nat × Nat)) 1).2 1 =
      Except.error StoreError.notFound := by
  have h := (remove_by_id_semantics Prod.fst (⟨[(1, 10), (2, 20)]⟩ : Store (Nat × Nat)) 1
    (by decide)).2 (by decide)
  exact ⟨h.2.1, h.2.2⟩

/-! ### C8: `remove` delegates to `remove_by_id` -/

/-- C8: for every entity and every store state, `remove(e)` gives the same
result and the same resulting store as `remove_by_id(e.get_id())`; no other
field of the entity is consulted. -/
theorem remove_delegates_to_remove_by_id {I E : Type} [DecidableEq I] (getId : E → I)
    (st : Store E) (e : E) :
    Store.remove getId st e = Store.remove_by_id getId st (getId e) := rfl

/-! ### C9: `update` semantics -/

/-- C9: `update(e)` fails with `NotFound` (store unchanged) when no record
with `e`'s id exists; otherwise it succeeds, keeps the collection size, and in
every position `j` the stored value is replaced wholesale by `e` when its id
matches and left untouched when it does not. -/
theorem update_semantics {I E : Type} [DecidableEq I] (getId : E → I)
    (st : Store E) (e : E) :
    ((¬ ∃ x ∈ st.records, getId x = getId e) →
      Store.update getId st e = (Except.error StoreError.notFound, st)) ∧
    ((∃ x ∈ st.records, getId x = getId e) →
      (Store.update getId st e).1 = Except.ok () ∧
      (Store.update getId st e).2.records.length = st.records.length ∧
      ∀ (j : Nat) (x : E), st.records[j]? = some x →
        (getId x = getId e → (Store.update getId st e).2.records[j]? = some e) ∧
        (getId x ≠ getId e → (Store.update getId st e).2.records[j]? = some x)) := by
  constructor
  · intro h; simp [Store.update, if_neg h]
  · intro h
    have heq : Store.update getId st e =
        (Except.ok (), ⟨st.records.map fun x => if getId x = getId e then e else x⟩) := by
      simp [Store.update, if_pos h]
    refine ⟨by rw [heq], by rw [heq]; simp, ?_⟩
    intro j x hx
    constructor
    · intro hid
      rw [heq]
      show (st.records.map fun y => if getId y = getId e then e else y)[j]? = some e
      rw [List.getElem?_map, hx]
      simp [hid]
    · intro hid
      rw [heq]
      show (st.records.map fun y => if getId y = getId e then e else y)[j]? = some x
      rw [List.getElem?_map, hx]
      simp [hid]

/-- C9 (witness): updating id 2 in a two-record store succeeds, keeps size 2,
replaces position 1 wholesale, and leaves position 0 untouched. -/
theorem update_semantics_witness :
    (Store.update Prod.fst (⟨[(1, 10), (2, 20)]⟩ : Store (Nat × Nat)) (2, 99)).1 =
      Except.ok () ∧
    (Store.update Prod.fst (⟨[(1, 10), (2, 20)]⟩ : Store (Nat × Nat)) (2, 99)).2.records.length
      = 2 ∧
    (Store.update Prod.fst (⟨[(1, 10), (2, 20)]⟩ : Store (Nat × Nat)) (2, 99)).2.records[1]? =
      some (2, 99) ∧
    (Store.update Prod.fst (⟨[(1, 10), (2, 20)]⟩ : Store (Nat × Nat)) (2, 99)).2.records[0]? =
      some (1, 10) := by
  have h := (update_semantics Prod.fst (⟨[(1, 10), (2, 20)]⟩ : Store (Nat × Nat)) (2, 99)).2
    (by decide)
  refine ⟨h.1, h.2.1, ?_, ?_⟩
  · exact (h.2.2 1 (2, 20) (by rfl)).1 (by decide)
  · exact (h.2.2 0 (1, 10) (by rfl)).2 (by decide)

/-! ### C10: sort symmetry -/

theorem length_insertById {I E : Type} [LinearOrder I] (getId : E → I) (a : E) :
    ∀ l : List E, (insertById getId a l).length = l.length + 1 := by
  intro l
  induction l with
  | nil => rfl
  | cons b l ih =>
      by_cases hab : getId a ≤ getId b
      · simp [insertById, hab]
      · simp [insertById, hab, ih]

theorem length_sortById {I E : Type} [LinearOrder I] (getId : E → I) :
    ∀ l : List E, (sortById getId l).length = l.length := by
  intro l
  induction l with
  | nil => rfl
  | cons a l ih => simp [sortById, length_insertById, ih]

/-- C10: over the full (unpaginated) collection, `find_all_with_page_and_sort`
with DESCENDING returns exactly the reverse of what it returns with
ASCENDING. -/
theorem sort_descending_reverse_ascending {I E : Type} [LinearOrder I] (getId : E → I)
    (st : Store E) :
    Store.find_all_with_page_and_sort getId st (Page.new 0 st.records.length)
        SortOrder.DESCENDING =
      Except.map List.reverse
        (Store.find_all_with_page_and_sort getId st (Page.new 0 st.records.length)
          SortOrder.ASCENDING) := by
  simp only [Store.find_all_with_page_and_sort]
  have hoff : (Page.new 0 st.records.length).offset = 0 := by
    simp [Page.new, Page.offset]
  have hsize : (Page.new 0 st.records.length).size = st.records.length := rfl
  rw [hoff, hsize, List.drop_zero, List.drop_zero]
  have h1 : (sortById getId st.records).take st.records.length
      = sortById getId st.records := by
    apply List.take_of_length_le
    rw [length_sortById]
  have h2 : (sortById getId st.records).reverse.take st.records.length
      = (sortById getId st.records).reverse := by
    apply List.take_of_length_le
    rw [List.length_reverse, length_sortById]
  rw [h1, h2]
  rfl
